import Mathlib

/-!
# Verification of `mof_matcher.find_matching_mofs`

Shallow embedding of `src/mof_matcher.py` (the MOFs_AWH matching and
aggregation engine).  Cell values of the pandas `DataFrame` are modelled by
`Value` (text, rational number, or the missing/NaN marker); a `Record` is one
row as an association list from column name to `Value`; a `Dataset` carries
the fixed column schema and the ordered list of rows.  Python floats are
modelled as rationals (`ℚ`); pandas `NaN` is `Value.missing`.
-/

/-- A cell value of the dataset: text, numeric, or the missing/NaN marker. -/
inductive Value where
  | text (s : String)
  | num (q : ℚ)
  | missing
deriving DecidableEq

/-- A raw criteria value, as passed in the `inputs` dict of
`find_matching_mofs`: Python `None`, a string, or a number. -/
inductive InVal where
  | omitted
  | str (s : String)
  | num (q : ℚ)
deriving DecidableEq

/-- A normalized criteria value (after blank / `None` entries are dropped):
either a string criterion or a numeric criterion. -/
inductive CritVal where
  | str (s : String)
  | num (q : ℚ)
deriving DecidableEq

/-- One row of the dataset: association list from column name to value.
Columns of the schema absent from the list read as `Value.missing`. -/
abbrev Record := List (String × Value)

/-- First-match association-list lookup. -/
def lookupVal (c : String) : Record → Option Value
  | [] => Option.none
  | p :: ps => if p.1 = c then some p.2 else lookupVal c ps

/-- `r[c]`: the value of column `c` in row `r` (`missing` when absent). -/
def Record.getVal (r : Record) (c : String) : Value :=
  (lookupVal c r).getD Value.missing

/-- Drop the binding of column `c` from a row. -/
def removeCol (c : String) : Record → Record
  | [] => []
  | p :: ps => if p.1 = c then removeCol c ps else p :: removeCol c ps

/-- `r[c] = v`: set column `c` of row `r` to `v`. -/
def Record.setVal (r : Record) (c : String) (v : Value) : Record :=
  (c, v) :: removeCol c r

/-- A pandas `DataFrame`: a fixed ordered column schema and ordered rows. -/
structure Dataset where
  cols : List String
  rows : List Record
deriving DecidableEq

/-- The result table returned by `find_matching_mofs`. -/
structure Table where
  cols : List String
  rows : List Record
deriving DecidableEq

/-- Errors `find_matching_mofs` can raise: the enumerated missing-columns
`KeyError` (line 74), a `KeyError` from accessing a single absent column
(`groupby("MOF")` or `group["Gas uptake (mmol/g)"]`), the `KeyError` that
`group.loc[idx_max, keep_cols]` (line 114) raises under pandas ≥ 1.0 when
one or more of the listed labels are not in the index, and the `ValueError`
pandas `Series.idxmax` raises on an all-NaN column. -/
inductive Err where
  | missingColumns (cols : List String)
  | keyError (col : String)
  | locKeyError (cols : List String)
  | valueError
deriving DecidableEq

/-- `INPUT_COLS` of `mof_matcher.py`. -/
def INPUT_COLS : List String := [
  "MOF", "N2", "CO2", "CH4", "Gas Temperature (°C)", "Gas Pressure (bar)",
  "Gas uptake (mmol/g)", "Void Fraction", "MSA (m²/g)", "VSA (m²/cm³)",
  "PLD (Å)", "LCD (Å)"
]

/-- `OUTPUT_COLS` of `mof_matcher.py`: the fixed output schema. -/
def OUTPUT_COLS : List String := [
  "MOF", "KH (mmol/bar.g)", "W 0.1 (mmol/g)", "W 0.2 (mmol/g)", "W 0.3 (mmol/g)",
  "W 0.4 (mmol/g)", "W 0.5 (mmol/g)", "W 0.6 (mmol/g)", "W 0.7 (mmol/g)",
  "W 0.8 (mmol/g)", "W 0.9 (mmol/g)",
  "N2", "CO2", "CH4", "Gas Temperature (°C)", "Gas Pressure (bar)",
  "Gas uptake (mmol/g)", "Void Fraction", "MSA (m²/g)", "VSA (m²/cm³)",
  "PLD (Å)", "LCD (Å)"
]

/-- `keep_cols` of lines 109-113: the operating-condition columns carried
over from the representative record of a multi-record group. -/
def KEEP_COLS : List String :=
  ["N2", "CO2", "CH4", "Gas Temperature (°C)", "Gas Pressure (bar)",
   "Gas uptake (mmol/g)"]

/-- The operating-uptake column name. -/
def UPTAKE : String := "Gas uptake (mmol/g)"

/-! ## String primitives

Python's `str.strip()` and `str.lower()` and the string order are embedded
structurally over the character list (Lean core's `String.trim`,
`String.toLower` and the `String` order are observably the same on the
inputs this program sees, but are defined by well-founded recursion on byte
positions, which blocks evaluation inside proofs). -/

/-- The whitespace characters `str.strip()` removes. -/
def isPySpace (c : Char) : Bool :=
  c = ' ' || c = '\t' || c = '\n' || c = '\r' || c = '\x0b' || c = '\x0c'

/-- Python `str.strip()`: drop leading and trailing whitespace. -/
def pyStrip (s : String) : String :=
  ⟨((s.data.dropWhile isPySpace).reverse.dropWhile isPySpace).reverse⟩

/-- Python `str.lower()` (ASCII case folding, as in the source's usage). -/
def pyLower (s : String) : String :=
  ⟨s.data.map Char.toLower⟩

/-! ## Numeric coercion (`pd.to_numeric(..., errors="coerce")`) -/

/-- Parse a non-empty all-digit character list into a natural number. -/
def digitsToNatAux (acc : ℕ) : List Char → Option ℕ
  | [] => some acc
  | c :: cs =>
    if c.isDigit then digitsToNatAux (acc * 10 + (c.toNat - 48)) cs
    else Option.none

/-- Parse a non-empty all-digit character list into a natural number. -/
def digitsToNat : List Char → Option ℕ
  | [] => Option.none
  | cs => digitsToNatAux 0 cs

/-- Parse an optionally signed all-digit character list into an integer. -/
def parseSignedInt : List Char → Option ℤ
  | '-' :: cs => (digitsToNat cs).map (fun n => -(n : ℤ))
  | '+' :: cs => (digitsToNat cs).map (fun n => (n : ℤ))
  | cs => (digitsToNat cs).map (fun n => (n : ℤ))

/-- Split a character list on a separator character. -/
def splitOnChar (sep : Char) : List Char → List (List Char)
  | [] => [[]]
  | c :: cs =>
    match splitOnChar sep cs with
    | [] => if c = sep then [[], []] else [[c]]
    | g :: gs => if c = sep then [] :: g :: gs else (c :: g) :: gs

/-- Parse an unsigned decimal mantissa (`"12"`, `"12.5"`, `".5"`, `"12."`). -/
def parseMantissa (cs : List Char) : Option ℚ :=
  match splitOnChar '.' cs with
  | [i] => (digitsToNat i).map (fun n => (n : ℚ))
  | [i, f] =>
    if i.isEmpty && f.isEmpty then Option.none
    else
      let iv : Option ℕ := if i.isEmpty then some 0 else digitsToNat i
      let fv : Option ℚ :=
        if f.isEmpty then some 0
        else (digitsToNat f).map (fun n => (n : ℚ) / (10 : ℚ) ^ f.length)
      match iv, fv with
      | some a, some b => some ((a : ℚ) + b)
      | _, _ => Option.none
  | _ => Option.none

/-- Parse a decimal-literal string into a rational, modelling how Python /
pandas accept numeric strings (optional sign, decimal point, exponent;
surrounding whitespace ignored).  Strings such as `"nan"`/`"inf"` yield
`none`, which coincides observably with NaN for this program (NaN never
matches `between` and is excluded from means and `idxmax`). -/
def parseRatStr (s : String) : Option ℚ :=
  let cs := (pyStrip s).data
  let sgn : ℚ := if cs.head? = some '-' then -1 else 1
  let body : List Char :=
    match cs with
    | '-' :: rest => rest
    | '+' :: rest => rest
    | _ => cs
  let mAndE : List Char × Option (List Char) :=
    match splitOnChar 'e' body with
    | [m, e] => (m, some e)
    | [_] =>
      (match splitOnChar 'E' body with
       | [m, e] => (m, some e)
       | _ => (body, Option.none))
    | _ => ([], some ['x'])
  match mAndE with
  | (m, Option.none) => (parseMantissa m).map (fun q => sgn * q)
  | (m, some e) =>
    match parseMantissa m, parseSignedInt e with
    | some q, some z => some (sgn * q * (10 : ℚ) ^ z)
    | _, _ => Option.none

/-- `pd.to_numeric(v, errors="coerce")` on a single cell: numbers pass
through, numeric strings are parsed, everything else becomes NaN (`none`). -/
def toNumeric : Value → Option ℚ
  | .num q => some q
  | .text s => parseRatStr s
  | .missing => Option.none

/-! ## String rendering (`astype(str)`) -/

/-- `astype(str)` on a single cell.  pandas renders every value as text;
NaN renders as `"nan"`.  The exact text chosen for a number is immaterial
to the theorems below, so the embedding uses `ℚ`'s `toString`. -/
def Value.render : Value → String
  | .text s => s
  | .num q => toString q
  | .missing => "nan"

/-! ## Criteria normalization (lines 56-66) -/

/-- Python dict insertion: replace the value in place when the key exists,
append otherwise. -/
def dictInsert (d : List (String × CritVal)) (k : String) (v : CritVal) :
    List (String × CritVal) :=
  if d.any (fun p => p.1 = k) then
    d.map (fun p => if p.1 = k then (k, v) else p)
  else d ++ [(k, v)]

/-- One iteration of the normalization loop (lines 58-66). -/
def normStep (acc : List (String × CritVal)) (kv : String × InVal) :
    List (String × CritVal) :=
  match kv.2 with
  | .omitted => acc
  | .str s => if pyStrip s = "" then acc else dictInsert acc (pyStrip kv.1) (.str s)
  | .num q => dictInsert acc (pyStrip kv.1) (.num q)

/-- Lines 56-66: drop `None` values and blank strings, strip keys, and keep
every other value; dict semantics on the collected keys. -/
def normalizeInputs (inputs : List (String × InVal)) : List (String × CritVal) :=
  inputs.foldl normStep []

/-- Line 72: the criteria column names absent from the dataset schema. -/
def missingOf (df : Dataset) (provided : List (String × CritVal)) : List String :=
  (provided.map Prod.fst).filter (fun k => k ∉ df.cols)

/-! ## Working-copy coercions and the mask (lines 76-91) -/

/-- The per-cell coercion a criterion applies to its column in the working
copy: string criteria run `astype(str).str.strip().str.lower()` (line 83),
numeric criteria run `pd.to_numeric(..., errors="coerce")` (line 86). -/
def coerceForCrit : CritVal → Value → Value
  | .str _, v => .text (pyLower (pyStrip v.render))
  | .num _, v =>
    match toNumeric v with
    | some q => .num q
    | Option.none => .missing

/-- `df_work[col] = f(df_work[col])`: transform one column of every row. -/
def Dataset.setColWith (df : Dataset) (c : String) (f : Value → Value) : Dataset :=
  ⟨df.cols, df.rows.map (fun r => r.setVal c (f (r.getVal c)))⟩

/-- Lines 81-89 (assignment part): the working copy after all per-criterion
column coercions have been applied, column by column. -/
def applyCoercions (df : Dataset) (provided : List (String × CritVal)) : Dataset :=
  provided.foldl (fun d p => d.setColWith p.1 (coerceForCrit p.2)) df

/-- Row-level view of the same coercions (used for reasoning). -/
def coerceRecord (provided : List (String × CritVal)) (r : Record) : Record :=
  provided.foldl (fun r p => r.setVal p.1 (coerceForCrit p.2 (r.getVal p.1))) r

/-- The per-cell mask test of one criterion on an (already coerced)
working-copy cell: a string criterion compares the coerced text to
`val.strip().lower()` (line 84); a numeric criterion checks
`between(0.98*val, 1.02*val)` (lines 87-89), which is false on NaN. -/
def critCheckVal : CritVal → Value → Bool
  | .str s, .text t => decide (t = pyLower (pyStrip s))
  | .str _, _ => false
  | .num q, .num x => decide ((98 / 100 : ℚ) * q ≤ x ∧ x ≤ (102 / 100 : ℚ) * q)
  | .num _, _ => false

/-- Lines 76-89 (mask part), evaluated on a working-copy row: the
conjunction of all per-criterion tests. -/
def rowMask (provided : List (String × CritVal)) (wr : Record) : Bool :=
  provided.all (fun p => critCheckVal p.2 (wr.getVal p.1))

/-- Line 91: `matched = df_work[mask]`, the filtered working-copy rows in
original dataset order. -/
def matchedRows (df : Dataset) (provided : List (String × CritVal)) : List Record :=
  (applyCoercions df provided).rows.filter (rowMask provided)

/-- The predicate a single criterion induces on an original record: coerce
that record's column as the working copy does, then apply the mask test. -/
def criterionMatches (c : String) (v : CritVal) (r : Record) : Bool :=
  rowMask [(c, v)] (coerceRecord [(c, v)] r)

/-! ## Grouping (`groupby("MOF")`, sorted keys) -/

/-- Lexicographic order on character lists (the string order, embedded
structurally). -/
def charListLe : List Char → List Char → Bool
  | [], _ => true
  | _ :: _, [] => false
  | a :: as, b :: bs => if a = b then charListLe as bs else decide (a < b)

/-- Total comparison on cell values used to sort group keys ascending, as
`groupby(sort=True)` does.  Homogeneous keys (all text, or all numeric)
compare exactly as in pandas; pandas raises on mixed-type keys, which the
embedding totalizes by putting numbers before text. -/
def valLe : Value → Value → Bool
  | .missing, _ => true
  | _, .missing => false
  | .num p, .num q => decide (p ≤ q)
  | .num _, .text _ => true
  | .text _, .num _ => false
  | .text s, .text t => charListLe s.data t.data

/-- `valLe` as a relation. -/
def valLeP (a b : Value) : Prop := valLe a b = true

instance : DecidableRel valLeP := fun a b => decidable_of_iff (valLe a b = true) Iff.rfl

/-- The group keys of `matched.groupby("MOF")`: the distinct non-NaN values
of the `MOF` column, in ascending order (pandas drops NaN keys and sorts). -/
def groupKeys (matched : List Record) : List Value :=
  List.insertionSort valLeP
    (((matched.map (fun r => r.getVal "MOF")).filter
      (fun v => v ≠ Value.missing)).dedup)

/-- The rows of one group, in filtered order. -/
def groupOf (matched : List Record) (k : Value) : List Record :=
  matched.filter (fun r => r.getVal "MOF" = k)

/-! ## Per-group aggregation (lines 99-138) -/

/-- Lines 100-103: coerce the group's operating-uptake column to numeric
(only when that column exists in the schema). -/
def coerceUptake (cols : List String) (r : Record) : Record :=
  if UPTAKE ∈ cols then
    r.setVal UPTAKE
      (match toNumeric (r.getVal UPTAKE) with
       | some q => .num q
       | Option.none => .missing)
  else r

/-- The numeric reading of a row's (already coerced) uptake cell. -/
def uptakeQ (r : Record) : Option ℚ :=
  match r.getVal UPTAKE with
  | .num q => some q
  | _ => Option.none

/-- One step of the `idxmax` scan: keep the current row `r` unless the best
row of the remaining list has a strictly larger numeric value (so on ties
the earlier row wins). -/
def pickMax (f : Record → Option ℚ) (r : Record) (best : Option Record) :
    Option Record :=
  match f r, best with
  | Option.none, b => b
  | some _, Option.none => some r
  | some q, some r' =>
    match f r' with
    | some q' => if q < q' then some r' else some r
    | Option.none => some r

/-- `Series.idxmax` (line 107) lifted to the row list: the first row whose
`f`-value is numeric and maximal among the numeric values (NaN skipped);
`none` when no row has a numeric value. -/
def idxmaxBy (f : Record → Option ℚ) : List Record → Option Record
  | [] => Option.none
  | r :: rs => pickMax f r (idxmaxBy f rs)

/-- The numeric entries of a list of cells. -/
def numVals (vs : List Value) : List ℚ :=
  vs.filterMap (fun v =>
    match v with
    | .num q => some q
    | _ => Option.none)

/-- Column mean as pandas computes it (line 120): mean over the numeric,
present values only; NaN when there are none. -/
def meanVal (vs : List Value) : Value :=
  let ns := numVals vs
  if ns.isEmpty then Value.missing else Value.num (ns.sum / (ns.length : ℚ))

/-- Lines 99-138: aggregate one group into one output row.  Multi-row groups
(lines 105-132) pick the first-max-uptake representative via `idxmax`
(line 107, `ValueError` on an all-NaN column), then read it with
`group.loc[idx_max, keep_cols]` (line 114), which under pandas ≥ 1.0 raises
`KeyError` listing the `keep_cols` labels absent from the schema; on success
they carry `KEEP_COLS` from the representative, average the remaining schema
columns, and pin `MOF` to the group key (the `if c in top_row.index` guard
of line 127 is then always true, since `top_row` is indexed by exactly
`keep_cols`).  Single-row groups (lines 134-138) project the row onto
`OUTPUT_COLS`.  `group` is nonempty by construction (group keys come from
the rows), so the empty case is unreachable. -/
def processGroup (cols : List String) (k : Value) (group0 : List Record) :
    Except Err Record :=
  let group := group0.map (coerceUptake cols)
  if 1 < group.length then
    if UPTAKE ∈ cols then
      match idxmaxBy uptakeQ group with
      | some rep =>
        if (KEEP_COLS.filter (fun c => c ∉ cols)).isEmpty then
          .ok (OUTPUT_COLS.map (fun c =>
            (c, if c ∈ KEEP_COLS then rep.getVal c
                else if c = "MOF" then k
                else if c ∈ cols then meanVal (group.map (fun r => r.getVal c))
                else Value.missing)))
        else .error (.locKeyError (KEEP_COLS.filter (fun c => c ∉ cols)))
      | Option.none => .error .valueError
    else .error (.keyError UPTAKE)
  else
    match group with
    | [r] => .ok (OUTPUT_COLS.map (fun c =>
        (c, if c ∈ cols then r.getVal c else Value.missing)))
    | _ => .ok (OUTPUT_COLS.map (fun c => (c, Value.missing)))

/-- `mapM` over `Except`, written out so the first error wins, as the Python
loop's first uncaught exception does. -/
def mapME {α β : Type} (f : α → Except Err β) : List α → Except Err (List β)
  | [] => .ok []
  | a :: as =>
    match f a with
    | .error e => .error e
    | .ok b =>
      match mapME f as with
      | .error e => .error e
      | .ok bs => .ok (b :: bs)

/-- `find_matching_mofs` of `mof_matcher.py`, lines 41-141: short-circuit on
an empty frame (lines 53-54), normalize the criteria and short-circuit when
nothing remains (lines 56-69), validate the criteria columns (lines 71-74),
coerce a working copy and filter by the conjunctive mask (lines 76-94), and
aggregate the groups of `groupby("MOF")` in ascending key order into the
fixed-schema output table (lines 96-141). -/
def find_matching_mofs (df : Dataset) (inputs : List (String × InVal)) :
    Except Err Table :=
  if df.rows.isEmpty || df.cols.isEmpty then .ok ⟨OUTPUT_COLS, []⟩
  else if (normalizeInputs inputs).isEmpty then .ok ⟨OUTPUT_COLS, []⟩
  else if ¬ (missingOf df (normalizeInputs inputs)).isEmpty then
    .error (.missingColumns (missingOf df (normalizeInputs inputs)))
  else if (matchedRows df (normalizeInputs inputs)).isEmpty then
    .ok ⟨OUTPUT_COLS, []⟩
  else if "MOF" ∈ df.cols then
    (mapME
      (fun k => processGroup df.cols k
        (groupOf (matchedRows df (normalizeInputs inputs)) k))
      (groupKeys (matchedRows df (normalizeInputs inputs)))).map
      (fun rows => ⟨OUTPUT_COLS, rows⟩)
  else .error (.keyError "MOF")

/-! ## Heap model for the frame property

`find_matching_mofs` mutates `df_work`, a copy of its argument (line 79),
never the caller's frame.  To make that observable, this variant runs the
same computation over an explicit heap of `DataFrame` objects: the caller
passes a pointer, `df.copy()` allocates a fresh cell, and every column
assignment of lines 81-89 is a heap write to the working pointer. -/

/-- A heap of `DataFrame` objects; pointers are indices. -/
structure PdHeap where
  dfs : List Dataset
deriving DecidableEq

/-- Dereference a pointer (out-of-range reads give an empty frame). -/
def PdHeap.read (h : PdHeap) (p : ℕ) : Dataset := h.dfs.getD p ⟨[], []⟩

/-- Overwrite the object at a pointer. -/
def PdHeap.write (h : PdHeap) (p : ℕ) (d : Dataset) : PdHeap := ⟨h.dfs.set p d⟩

/-- Allocate a fresh object (`df.copy()`), returning its pointer. -/
def PdHeap.alloc (h : PdHeap) (d : Dataset) : PdHeap × ℕ :=
  (⟨h.dfs ++ [d]⟩, h.dfs.length)

/-- The column assignments of lines 81-89 as heap writes: each criterion
coerces its column of the frame at pointer `pw` in place. -/
def coercionWrites (provided : List (String × CritVal)) (pw : ℕ)
    (hh : PdHeap) : PdHeap :=
  provided.foldl (fun hh q =>
    hh.write pw ((hh.read pw).setColWith q.1 (coerceForCrit q.2))) hh

/-- The heap after `df_work = df.copy()` (line 79) and the column coercions
of lines 81-89. -/
def workedHeap (h : PdHeap) (p : ℕ)
    (provided : List (String × CritVal)) : PdHeap :=
  coercionWrites provided (h.alloc (h.read p)).2 (h.alloc (h.read p)).1

/-- The working frame (`df_work` after coercions) the mask is evaluated
on. -/
def workFrame (h : PdHeap) (p : ℕ)
    (provided : List (String × CritVal)) : Dataset :=
  (workedHeap h p provided).read (h.alloc (h.read p)).2

/-- `find_matching_mofs` with the dataset passed by pointer into an explicit
heap; the working-copy coercions of lines 78-89 are heap writes against the
pointer `df.copy()` returned, and the final heap is returned alongside the
result. -/
def find_matching_mofs_heap (h : PdHeap) (p : ℕ)
    (inputs : List (String × InVal)) : PdHeap × Except Err Table :=
  if (h.read p).rows.isEmpty || (h.read p).cols.isEmpty then
    (h, .ok ⟨OUTPUT_COLS, []⟩)
  else if (normalizeInputs inputs).isEmpty then (h, .ok ⟨OUTPUT_COLS, []⟩)
  else if ¬ (missingOf (h.read p) (normalizeInputs inputs)).isEmpty then
    (h, .error (.missingColumns (missingOf (h.read p) (normalizeInputs inputs))))
  else if ((workFrame h p (normalizeInputs inputs)).rows.filter
      (rowMask (normalizeInputs inputs))).isEmpty then
    (workedHeap h p (normalizeInputs inputs), .ok ⟨OUTPUT_COLS, []⟩)
  else if "MOF" ∈ (h.read p).cols then
    (workedHeap h p (normalizeInputs inputs),
     (mapME
       (fun k => processGroup (h.read p).cols k
         (groupOf ((workFrame h p (normalizeInputs inputs)).rows.filter
           (rowMask (normalizeInputs inputs))) k))
       (groupKeys ((workFrame h p (normalizeInputs inputs)).rows.filter
         (rowMask (normalizeInputs inputs))))).map
       (fun rows => ⟨OUTPUT_COLS, rows⟩))
  else (workedHeap h p (normalizeInputs inputs), .error (.keyError "MOF"))

/-! ## Specification-side definitions -/

/-- Specification-side notion of the representative record, in the words of
the spec: `r` occurs in `l` with `f`-value `q`, every numeric `f`-value in
`l` is at most `q`, and every record strictly before `r` has its numeric
`f`-value strictly below `q` — so `r` attains the maximum and is the first
record in filtered order to do so (first wins ties). -/
def IsFirstMax (f : Record → Option ℚ) (l : List Record) (r : Record)
    (q : ℚ) : Prop :=
  f r = some q ∧
  ∃ l₁ l₂, l = l₁ ++ r :: l₂ ∧
    (∀ x ∈ l, ∀ p, f x = some p → p ≤ q) ∧
    (∀ x ∈ l₁, ∀ p, f x = some p → p < q)

/-! # Lemmas -/

theorem lookupVal_cons (c : String) (p : String × Value) (ps : Record) :
    lookupVal c (p :: ps) = if p.1 = c then some p.2 else lookupVal c ps := rfl

theorem lookupVal_removeCol {c c' : String} (h : c' ≠ c) (r : Record) :
    lookupVal c' (removeCol c r) = lookupVal c' r := by
  induction r with
  | nil => rfl
  | cons p ps ih =>
    rw [removeCol]
    by_cases hp : p.1 = c
    · rw [if_pos hp, ih, lookupVal_cons]
      have hpc : ¬ p.1 = c' := by rw [hp]; exact fun hh => h hh.symm
      rw [if_neg hpc]
    · rw [if_neg hp, lookupVal_cons, lookupVal_cons, ih]

theorem getVal_setVal_same (r : Record) (c : String) (v : Value) :
    (r.setVal c v).getVal c = v := by
  simp [Record.setVal, Record.getVal, lookupVal_cons]

theorem getVal_setVal_ne {c c' : String} (h : c' ≠ c) (r : Record) (v : Value) :
    (r.setVal c v).getVal c' = r.getVal c' := by
  have hcc : ¬ c = c' := fun hh => h hh.symm
  simp only [Record.setVal, Record.getVal, lookupVal_cons, hcc, if_false,
    lookupVal_removeCol h]

theorem list_all_congr {α : Type} {p q : α → Bool} :
    ∀ l : List α, (∀ x ∈ l, p x = q x) → l.all p = l.all q := by
  intro l h
  induction l with
  | nil => rfl
  | cons a as ih =>
    simp only [List.all_cons]
    rw [h a (by simp), ih (fun x hx => h x (by simp [hx]))]

theorem keys_dictInsert_nodup (d : List (String × CritVal)) (k : String)
    (v : CritVal) (h : (d.map Prod.fst).Nodup) :
    ((dictInsert d k v).map Prod.fst).Nodup := by
  unfold dictInsert
  by_cases hk : d.any (fun p => p.1 = k)
  · rw [if_pos hk]
    have heq : (d.map (fun p => if p.1 = k then (k, v) else p)).map Prod.fst
        = d.map Prod.fst := by
      rw [List.map_map]
      apply List.map_congr_left
      intro p _
      by_cases hp : p.1 = k <;> simp [hp, Function.comp]
    rw [heq]; exact h
  · rw [if_neg hk]
    rw [List.map_append, List.nodup_append]
    refine ⟨h, List.nodup_singleton k, ?_⟩
    intro a ha hb
    simp only [List.map_cons, List.map_nil, List.mem_singleton] at hb
    subst hb
    rcases List.mem_map.mp ha with ⟨p, hp, hp2⟩
    exact (List.any_eq_true.not.mp hk) ⟨p, hp, by simp [hp2]⟩

theorem normStep_keys_nodup (acc : List (String × CritVal))
    (kv : String × InVal) (h : (acc.map Prod.fst).Nodup) :
    ((normStep acc kv).map Prod.fst).Nodup := by
  unfold normStep
  match kv.2 with
  | .omitted => exact h
  | .str s =>
    by_cases hs : pyStrip s = ""
    · simp [hs, h]
    · simp only [hs, if_false]
      exact keys_dictInsert_nodup _ _ _ h
  | .num q => exact keys_dictInsert_nodup _ _ _ h

theorem foldl_normStep_keys_nodup (inputs : List (String × InVal)) :
    ∀ acc : List (String × CritVal), (acc.map Prod.fst).Nodup →
    ((inputs.foldl normStep acc).map Prod.fst).Nodup := by
  induction inputs with
  | nil => intro acc h; exact h
  | cons kv rest ih =>
    intro acc h
    exact ih _ (normStep_keys_nodup acc kv h)

theorem normalizeInputs_keys_nodup (inputs : List (String × InVal)) :
    ((normalizeInputs inputs).map Prod.fst).Nodup :=
  foldl_normStep_keys_nodup inputs [] (by simp)

theorem getVal_coerceRecord_notMem {provided : List (String × CritVal)}
    {c : String} (h : c ∉ provided.map Prod.fst) (r : Record) :
    (coerceRecord provided r).getVal c = r.getVal c := by
  induction provided generalizing r with
  | nil => rfl
  | cons p ps ih =>
    have h1 : c ≠ p.1 := by
      intro hh; exact h (by simp [hh])
    have h2 : c ∉ ps.map Prod.fst := by
      intro hh; exact h (by simp [hh])
    show (coerceRecord ps (r.setVal p.1 (coerceForCrit p.2 (r.getVal p.1)))).getVal c
        = r.getVal c
    rw [ih h2, getVal_setVal_ne h1]

theorem getVal_coerceRecord_mem {provided : List (String × CritVal)}
    (hnd : (provided.map Prod.fst).Nodup) {c : String} {v : CritVal}
    (hmem : (c, v) ∈ provided) (r : Record) :
    (coerceRecord provided r).getVal c = coerceForCrit v (r.getVal c) := by
  induction provided generalizing r with
  | nil => cases hmem
  | cons p ps ih =>
    simp only [List.map_cons, List.nodup_cons] at hnd
    rcases List.mem_cons.mp hmem with heq | hmem'
    · subst heq
      have hc : c ∉ ps.map Prod.fst := hnd.1
      show (coerceRecord ps (r.setVal c (coerceForCrit v (r.getVal c)))).getVal c
          = coerceForCrit v (r.getVal c)
      rw [getVal_coerceRecord_notMem hc, getVal_setVal_same]
    · have hcmem : c ∈ ps.map Prod.fst :=
        List.mem_map.mpr ⟨(c, v), hmem', rfl⟩
      have hne : c ≠ p.1 := fun hh => hnd.1 (hh ▸ hcmem)
      show (coerceRecord ps (r.setVal p.1 (coerceForCrit p.2 (r.getVal p.1)))).getVal c
          = coerceForCrit v (r.getVal c)
      rw [ih hnd.2 hmem', getVal_setVal_ne hne]

theorem criterionMatches_eq (c : String) (v : CritVal) (r : Record) :
    criterionMatches c v r = critCheckVal v (coerceForCrit v (r.getVal c)) := by
  unfold criterionMatches rowMask coerceRecord
  simp [getVal_setVal_same]

theorem rowMask_coerceRecord (provided : List (String × CritVal))
    (hnd : (provided.map Prod.fst).Nodup) (r : Record) :
    rowMask provided (coerceRecord provided r)
      = provided.all (fun p => criterionMatches p.1 p.2 r) := by
  unfold rowMask
  apply list_all_congr
  intro p hp
  rw [getVal_coerceRecord_mem hnd (by exact hp) r, criterionMatches_eq]

theorem applyCoercions_cols (provided : List (String × CritVal)) :
    ∀ df : Dataset, (applyCoercions df provided).cols = df.cols := by
  induction provided with
  | nil => intro df; rfl
  | cons p ps ih =>
    intro df
    show (applyCoercions (df.setColWith p.1 (coerceForCrit p.2)) ps).cols = df.cols
    rw [ih]; rfl

theorem applyCoercions_rows (provided : List (String × CritVal)) :
    ∀ df : Dataset,
    (applyCoercions df provided).rows = df.rows.map (coerceRecord provided) := by
  induction provided with
  | nil =>
    intro df
    show df.rows = df.rows.map (coerceRecord [])
    calc df.rows = df.rows.map id := (List.map_id _).symm
    _ = df.rows.map (coerceRecord []) := List.map_congr_left (fun r _ => rfl)
  | cons p ps ih =>
    intro df
    show (applyCoercions (df.setColWith p.1 (coerceForCrit p.2)) ps).rows = _
    rw [ih]
    simp only [Dataset.setColWith, List.map_map]
    apply List.map_congr_left
    intro r _
    rfl

/-! # Claim theorems -/

/-- C3: for a numeric criterion with value `v`, a record matches exactly when
coercing its column value to a number succeeds and the coerced value lies in
the inclusive band `[0.98*v, 1.02*v]`; when coercion fails the record never
matches; and for `v < 0` the band is inverted (lower bound exceeds upper
bound), so no record matches. -/
theorem numeric_criterion_band (c : String) (v : ℚ) (r : Record) :
    (criterionMatches c (CritVal.num v) r = true ↔
      ∃ x, toNumeric (r.getVal c) = some x ∧
        (98 / 100 : ℚ) * v ≤ x ∧ x ≤ (102 / 100 : ℚ) * v) ∧
    (toNumeric (r.getVal c) = Option.none →
      criterionMatches c (CritVal.num v) r = false) ∧
    (v < 0 → (102 / 100 : ℚ) * v < (98 / 100 : ℚ) * v ∧
      criterionMatches c (CritVal.num v) r = false) := by
  rw [criterionMatches_eq]
  cases h : toNumeric (r.getVal c) with
  | none =>
    refine ⟨?_, fun _ => ?_, fun hv => ⟨by linarith, ?_⟩⟩
    · simp [coerceForCrit, h, critCheckVal]
    · simp [coerceForCrit, h, critCheckVal]
    · simp [coerceForCrit, h, critCheckVal]
  | some x =>
    refine ⟨?_, fun hno => ?_, fun hv => ⟨by linarith, ?_⟩⟩
    · simp [coerceForCrit, h, critCheckVal]
    · exact absurd hno (by simp)
    · have : ¬ ((98 / 100 : ℚ) * v ≤ x ∧ x ≤ (102 / 100 : ℚ) * v) := by
        rintro ⟨h1, h2⟩
        linarith
      simp [coerceForCrit, h, critCheckVal, this]

/-- Witness for C3 at concrete inputs: the record with `N2 = 51/50` matches
the numeric criterion `N2 = 1` (band `[49/50, 51/50]`); a record whose `N2`
cell is not coercible to a number never matches; and with the negative
criterion `N2 = -1` no record matches, even one whose cell is `-1` exactly. -/
theorem numeric_criterion_band_witness :
    (criterionMatches "N2" (CritVal.num 1) [("N2", Value.num (51 / 50))] = true) ∧
    (criterionMatches "N2" (CritVal.num 1) [("N2", Value.missing)] = false) ∧
    ((102 / 100 : ℚ) * (-1) < (98 / 100 : ℚ) * (-1) ∧
      criterionMatches "N2" (CritVal.num (-1)) [("N2", Value.num (-1))] = false) := by
  refine ⟨?_, ?_, ?_⟩
  · exact (numeric_criterion_band "N2" 1 [("N2", Value.num (51 / 50))]).1.mpr
      ⟨51 / 50, rfl, by norm_num, by norm_num⟩
  · exact (numeric_criterion_band "N2" 1 [("N2", Value.missing)]).2.1 rfl
  · exact (numeric_criterion_band "N2" (-1) [("N2", Value.num (-1))]).2.2 (by norm_num)

/-- C4: for a text criterion with value `s`, a record matches exactly when
the text rendering of its column value, trimmed and case-folded, equals `s`
trimmed and case-folded.  (`astype(str)` renders every cell — NaN included,
as `"nan"` — so no record value fails to render, and the claim's «cannot be
rendered» clause is vacuous.) -/
theorem text_criterion_match (c : String) (s : String) (r : Record) :
    criterionMatches c (CritVal.str s) r = true ↔
      pyLower (pyStrip (r.getVal c).render) = pyLower (pyStrip s) := by
  rw [criterionMatches_eq]
  simp [coerceForCrit, critCheckVal]

/-- Witness for C4 at concrete inputs: the criterion `MOF = " A "` against a
record whose `MOF` cell is `"a"` — matching holds exactly when the trimmed,
case-folded sides agree. -/
theorem text_criterion_match_witness :
    criterionMatches "MOF" (CritVal.str " A ") [("MOF", Value.text "a")] = true
      ↔ pyLower (pyStrip (Record.getVal [("MOF", Value.text "a")] "MOF").render)
          = pyLower (pyStrip " A ") :=
  text_criterion_match "MOF" " A " [("MOF", Value.text "a")]

theorem foldl_normStep_blank (inputs : List (String × InVal))
    (h : ∀ kv ∈ inputs,
      kv.2 = InVal.omitted ∨ ∃ s, kv.2 = InVal.str s ∧ pyStrip s = "") :
    ∀ acc, inputs.foldl normStep acc = acc := by
  induction inputs with
  | nil => intro acc; rfl
  | cons kv rest ih =>
    intro acc
    have hstep : normStep acc kv = acc := by
      rcases h kv (by simp) with hom | ⟨s, hs, hblank⟩
      · simp only [normStep, hom]
      · simp only [normStep, hs, hblank, if_pos]
    rw [List.foldl_cons, hstep]
    exact ih (fun kv hkv => h kv (by simp [hkv])) acc

/-- A dataset with a single one-column record (used as concrete input). -/
def dfOne : Dataset := ⟨["MOF"], [[("MOF", Value.text "A")]]⟩

/-- C1 counterexample: on a nonempty dataset with criteria whose only value
is a blank string, `find_matching_mofs` returns the empty output table
(an `Except.ok`) — it does not raise the invalid-criteria error the claim
asserts. -/
theorem all_blank_criteria_counterexample :
    find_matching_mofs dfOne [("MOF", InVal.str "   ")]
      = Except.ok ⟨OUTPUT_COLS, []⟩ := rfl

/-- C1 (amended): for every dataset and every criteria mapping whose values
are all `None`, empty, or blank strings, `find_matching_mofs` returns an
empty result table with the fixed output schema (it raises no error). -/
theorem all_blank_criteria_empty_table (df : Dataset)
    (inputs : List (String × InVal))
    (h : ∀ kv ∈ inputs,
      kv.2 = InVal.omitted ∨ ∃ s, kv.2 = InVal.str s ∧ pyStrip s = "") :
    find_matching_mofs df inputs = Except.ok ⟨OUTPUT_COLS, []⟩ := by
  have hnorm : normalizeInputs inputs = [] := foldl_normStep_blank inputs h []
  unfold find_matching_mofs
  by_cases hd : df.rows.isEmpty || df.cols.isEmpty
  · rw [if_pos hd]
  · rw [if_neg hd]
    simp only [hnorm, List.isEmpty_nil, if_true]

/-- Witness for the amended C1 at concrete inputs: criteria holding one
`None`, one empty string and one blank string yield the empty table. -/
theorem all_blank_criteria_empty_table_witness :
    find_matching_mofs dfOne
      [("MOF", InVal.str "  "), ("N2", InVal.omitted), ("CO2", InVal.str "")]
      = Except.ok ⟨OUTPUT_COLS, []⟩ :=
  all_blank_criteria_empty_table dfOne _ (by
    intro kv hkv
    simp only [List.mem_cons, List.not_mem_nil, or_false] at hkv
    rcases hkv with h | h | h
    · exact Or.inr ⟨"  ", by rw [h], rfl⟩
    · exact Or.inl (by rw [h])
    · exact Or.inr ⟨"", by rw [h], rfl⟩)

/-- C10: when the input dataset has no rows, `find_matching_mofs` returns
the empty table with the fixed output schema for every criteria mapping —
criteria normalization and column validation never run, so neither the
invalid-criteria path nor the unknown-column error can trigger, even when
the criteria name columns absent from the schema. -/
theorem empty_dataset_short_circuit (df : Dataset)
    (inputs : List (String × InVal)) (h : df.rows = []) :
    find_matching_mofs df inputs = Except.ok ⟨OUTPUT_COLS, []⟩ := by
  unfold find_matching_mofs
  rw [h]
  simp

/-- Witness for C10 at concrete inputs: a rowless dataset with criteria
naming a column absent from the schema still yields the empty table. -/
theorem empty_dataset_short_circuit_witness :
    find_matching_mofs ⟨INPUT_COLS, []⟩ [("Bogus Column", InVal.num 1)]
      = Except.ok ⟨OUTPUT_COLS, []⟩ :=
  empty_dataset_short_circuit ⟨INPUT_COLS, []⟩ [("Bogus Column", InVal.num 1)] rfl

/-- C2: on a nonempty dataset, when the normalized criteria are nonempty and
at least one criteria column is absent from the schema, `find_matching_mofs`
fails with a single error enumerating exactly the criteria columns absent
from the schema (all of them, not just the first), and no table is
returned. -/
theorem missing_columns_error (df : Dataset) (inputs : List (String × InVal))
    (hrows : df.rows.isEmpty = false) (hcols : df.cols.isEmpty = false)
    (hprov : (normalizeInputs inputs).isEmpty = false)
    (hmiss : (missingOf df (normalizeInputs inputs)).isEmpty = false) :
    find_matching_mofs df inputs
      = Except.error (Err.missingColumns (missingOf df (normalizeInputs inputs))) ∧
    (∀ k, k ∈ missingOf df (normalizeInputs inputs) ↔
      (k ∈ (normalizeInputs inputs).map Prod.fst ∧ k ∉ df.cols)) ∧
    ∀ t : Table, find_matching_mofs df inputs ≠ Except.ok t := by
  have hmain : find_matching_mofs df inputs
      = Except.error (Err.missingColumns (missingOf df (normalizeInputs inputs))) := by
    unfold find_matching_mofs
    rw [hrows, hcols]
    simp only [Bool.or_self, Bool.false_eq_true, if_false]
    rw [if_neg (by rw [hprov]; exact Bool.false_ne_true)]
    rw [if_pos (by rw [hmiss]; exact Bool.false_ne_true)]
  refine ⟨hmain, ?_, ?_⟩
  · intro k
    simp [missingOf, List.mem_filter]
  · intro t h
    rw [hmain] at h
    cases h

/-- Witness for C2 at concrete inputs: criteria naming two unknown columns
produce one error enumerating both. -/
theorem missing_columns_error_witness :
    find_matching_mofs dfOne [("Bogus", InVal.num 1), ("Nope", InVal.str "x")]
      = Except.error (Err.missingColumns ["Bogus", "Nope"]) := by
  have h := missing_columns_error dfOne
    [("Bogus", InVal.num 1), ("Nope", InVal.str "x")] rfl rfl rfl rfl
  exact h.1

theorem mapME_map_ok {rows : List Record} {keys : List Value}
    {f : Value → Except Err Record} {t : Table}
    (h : (mapME f keys).map (fun rows => (⟨OUTPUT_COLS, rows⟩ : Table))
      = Except.ok t) (hm : mapME f keys = Except.ok rows) :
    t = ⟨OUTPUT_COLS, rows⟩ := by
  rw [hm] at h
  simp only [Except.map] at h
  injection h with h'
  exact h'.symm

/-- C8: every table `find_matching_mofs` returns on the success path —
including the empty one — has exactly the fixed output column list
`OUTPUT_COLS`, in the fixed order. -/
theorem output_schema_closure (df : Dataset) (inputs : List (String × InVal))
    (t : Table) (h : find_matching_mofs df inputs = Except.ok t) :
    t.cols = OUTPUT_COLS := by
  unfold find_matching_mofs at h
  by_cases h1 : (df.rows.isEmpty || df.cols.isEmpty : Bool)
  · rw [if_pos h1] at h
    injection h with h'
    rw [← h']
  · rw [if_neg h1] at h
    by_cases h2 : (normalizeInputs inputs).isEmpty
    · rw [if_pos h2] at h
      injection h with h'
      rw [← h']
    · rw [if_neg h2] at h
      by_cases h3 : ¬ (missingOf df (normalizeInputs inputs)).isEmpty
      · rw [if_pos h3] at h
        cases h
      · rw [if_neg h3] at h
        by_cases h4 : (matchedRows df (normalizeInputs inputs)).isEmpty
        · rw [if_pos h4] at h
          injection h with h'
          rw [← h']
        · rw [if_neg h4] at h
          by_cases h5 : "MOF" ∈ df.cols
          · rw [if_pos h5] at h
            cases hm : mapME
                (fun k => processGroup df.cols k
                  (groupOf (matchedRows df (normalizeInputs inputs)) k))
                (groupKeys (matchedRows df (normalizeInputs inputs))) with
            | ok rows => rw [mapME_map_ok h hm]
            | error e => rw [hm] at h; simp only [Except.map] at h; cases h
          · rw [if_neg h5] at h
            cases h

/-- Witness for C8 at a concrete input: the table returned for an empty
dataset carries the fixed schema. -/
theorem output_schema_closure_witness :
    (⟨OUTPUT_COLS, []⟩ : Table).cols = OUTPUT_COLS :=
  output_schema_closure ⟨INPUT_COLS, []⟩ [] ⟨OUTPUT_COLS, []⟩ rfl

theorem matchedRows_eq (df : Dataset) (provided : List (String × CritVal)) :
    matchedRows df provided
      = (df.rows.map (coerceRecord provided)).filter (rowMask provided) := by
  unfold matchedRows
  rw [applyCoercions_rows]

/-- C6: a working-copy row is in the matching subset exactly when it is the
coerced image of a dataset record satisfying every built predicate (logical
AND over all criteria); the subset preserves the original dataset order (it
is a sublist of the working rows); and when the subset is empty the
operation returns the empty output table with the fixed schema, not an
error. -/
theorem conjunctive_filter (df : Dataset) (inputs : List (String × InVal))
    (hrows : df.rows.isEmpty = false) (hcols : df.cols.isEmpty = false)
    (hprov : (normalizeInputs inputs).isEmpty = false)
    (hmiss : (missingOf df (normalizeInputs inputs)).isEmpty = true) :
    (∀ wr, wr ∈ matchedRows df (normalizeInputs inputs) ↔
      ∃ r ∈ df.rows, wr = coerceRecord (normalizeInputs inputs) r ∧
        ∀ p ∈ normalizeInputs inputs, criterionMatches p.1 p.2 r = true) ∧
    (matchedRows df (normalizeInputs inputs)).Sublist
      (df.rows.map (coerceRecord (normalizeInputs inputs))) ∧
    (matchedRows df (normalizeInputs inputs) = [] →
      find_matching_mofs df inputs = Except.ok ⟨OUTPUT_COLS, []⟩) := by
  refine ⟨?_, ?_, ?_⟩
  · intro wr
    rw [matchedRows_eq]
    constructor
    · intro hw
      rcases List.mem_filter.mp hw with ⟨hmem, hmask⟩
      rcases List.mem_map.mp hmem with ⟨r, hr, hcr⟩
      refine ⟨r, hr, hcr.symm, ?_⟩
      rw [← hcr, rowMask_coerceRecord _ (normalizeInputs_keys_nodup inputs)] at hmask
      exact fun p hp => List.all_eq_true.mp hmask p hp
    · rintro ⟨r, hr, hcr, hall⟩
      apply List.mem_filter.mpr
      refine ⟨List.mem_map.mpr ⟨r, hr, hcr.symm⟩, ?_⟩
      rw [hcr, rowMask_coerceRecord _ (normalizeInputs_keys_nodup inputs)]
      exact List.all_eq_true.mpr hall
  · rw [matchedRows_eq]
    exact List.filter_sublist _
  · intro hempty
    unfold find_matching_mofs
    rw [if_neg (by rw [hrows, hcols]; exact Bool.false_ne_true)]
    rw [if_neg (by rw [hprov]; exact Bool.false_ne_true)]
    rw [if_neg (by rw [hmiss]; exact not_not_intro rfl)]
    rw [if_pos (by rw [hempty]; rfl)]

/-- A two-record, two-column dataset (used as concrete input). -/
def dfAB : Dataset :=
  ⟨["MOF", "Gas uptake (mmol/g)"],
   [[("MOF", Value.text "A"), ("Gas uptake (mmol/g)", Value.num 2)],
    [("MOF", Value.text "B"), ("Gas uptake (mmol/g)", Value.num 1)]]⟩

/-- Witness for C6 at concrete inputs: the criterion `MOF = "a"` over
`dfAB`. -/
theorem conjunctive_filter_witness :
    (∀ wr, wr ∈ matchedRows dfAB (normalizeInputs [("MOF", InVal.str "a")]) ↔
      ∃ r ∈ dfAB.rows,
        wr = coerceRecord (normalizeInputs [("MOF", InVal.str "a")]) r ∧
        ∀ p ∈ normalizeInputs [("MOF", InVal.str "a")],
          criterionMatches p.1 p.2 r = true) ∧
    (matchedRows dfAB (normalizeInputs [("MOF", InVal.str "a")])).Sublist
      (dfAB.rows.map (coerceRecord (normalizeInputs [("MOF", InVal.str "a")]))) ∧
    (matchedRows dfAB (normalizeInputs [("MOF", InVal.str "a")]) = [] →
      find_matching_mofs dfAB [("MOF", InVal.str "a")]
        = Except.ok ⟨OUTPUT_COLS, []⟩) :=
  conjunctive_filter dfAB [("MOF", InVal.str "a")] rfl rfl rfl rfl

theorem charListLe_total : ∀ as bs : List Char,
    charListLe as bs = true ∨ charListLe bs as = true := by
  intro as
  induction as with
  | nil => intro bs; left; rfl
  | cons a as ih =>
    intro bs
    cases bs with
    | nil => right; rfl
    | cons b bs =>
      by_cases hab : a = b
      · subst hab
        unfold charListLe
        rw [if_pos rfl, if_pos rfl]
        exact ih bs
      · unfold charListLe
        rw [if_neg hab, if_neg (fun hh => hab hh.symm)]
        rcases lt_trichotomy a b with h | h | h
        · left; exact decide_eq_true h
        · exact absurd h hab
        · right; exact decide_eq_true h

theorem charListLe_trans : ∀ as bs cs : List Char,
    charListLe as bs = true → charListLe bs cs = true →
    charListLe as cs = true := by
  intro as
  induction as with
  | nil => intro bs cs h1 h2; rfl
  | cons a as ih =>
    intro bs cs h1 h2
    cases bs with
    | nil => cases h1
    | cons b bs =>
      cases cs with
      | nil => cases h2
      | cons c cs =>
        unfold charListLe at h1 h2 ⊢
        by_cases hab : a = b
        · subst hab
          rw [if_pos rfl] at h1
          by_cases hac : a = c
          · subst hac
            rw [if_pos rfl] at h2 ⊢
            exact ih bs cs h1 h2
          · rw [if_neg hac] at h2 ⊢
            exact h2
        · rw [if_neg hab] at h1
          have hab' : a < b := of_decide_eq_true h1
          by_cases hbc : b = c
          · subst hbc
            rw [if_neg hab]
            exact h1
          · rw [if_neg hbc] at h2
            have hbc' : b < c := of_decide_eq_true h2
            have hac : a < c := lt_trans hab' hbc'
            rw [if_neg (ne_of_lt hac)]
            exact decide_eq_true hac

theorem valLe_total : ∀ a b : Value, valLe a b = true ∨ valLe b a = true := by
  intro a b
  cases a <;> cases b <;>
    first
      | (left; rfl)
      | (right; rfl)
      | skip
  · exact charListLe_total _ _
  · rename_i p q
    rcases le_total p q with h | h
    · left; exact decide_eq_true h
    · right; exact decide_eq_true h

theorem valLe_trans : ∀ a b c : Value, valLe a b = true → valLe b c = true →
    valLe a c = true := by
  intro a b c
  cases a <;> cases b <;> cases c <;> intro h1 h2 <;>
    first
      | rfl
      | exact absurd h1 Bool.false_ne_true
      | exact absurd h2 Bool.false_ne_true
      | exact charListLe_trans _ _ _ h1 h2
      | exact decide_eq_true
          (le_trans (of_decide_eq_true h1) (of_decide_eq_true h2))

instance : IsTotal Value valLeP := ⟨valLe_total⟩

instance : IsTrans Value valLeP := ⟨valLe_trans⟩

/-- The distinct non-missing identity values of the matched rows (what the
group keys are drawn from). -/
def distinctIds (matched : List Record) : List Value :=
  ((matched.map (fun r => r.getVal "MOF")).filter
    (fun v => v ≠ Value.missing)).dedup

theorem groupKeys_sorted (matched : List Record) :
    List.Sorted valLeP (groupKeys matched) :=
  List.sorted_insertionSort valLeP _

theorem groupKeys_perm (matched : List Record) :
    List.Perm (groupKeys matched) (distinctIds matched) :=
  List.perm_insertionSort valLeP _

theorem groupKeys_nodup (matched : List Record) :
    (groupKeys matched).Nodup :=
  ((groupKeys_perm matched).nodup_iff).mpr (List.nodup_dedup _)

theorem groupKeys_length (matched : List Record) :
    (groupKeys matched).length = (distinctIds matched).length :=
  (groupKeys_perm matched).length_eq

theorem pairwise_and {α : Type} {R S : α → α → Prop} :
    ∀ {l : List α}, List.Pairwise R l → List.Pairwise S l →
    List.Pairwise (fun a b => R a b ∧ S a b) l := by
  intro l h1 h2
  induction h1 with
  | nil => exact List.Pairwise.nil
  | cons hr _ ih =>
    cases h2 with
    | cons hs ht => exact List.Pairwise.cons (fun b hb => ⟨hr b hb, hs b hb⟩) (ih ht)

theorem groupKeys_strict_chain (matched : List Record) :
    List.Chain' (fun a b => valLeP a b ∧ a ≠ b) (groupKeys matched) :=
  (pairwise_and (groupKeys_sorted matched) (groupKeys_nodup matched)).chain'

theorem mapME_ok_forall2 {α β : Type} {f : α → Except Err β} :
    ∀ {l : List α} {ys : List β}, mapME f l = Except.ok ys →
    List.Forall₂ (fun a b => f a = Except.ok b) l ys := by
  intro l
  induction l with
  | nil =>
    intro ys h
    injection h with h
    rw [← h]
    exact List.Forall₂.nil
  | cons a as ih =>
    intro ys h
    unfold mapME at h
    cases hf : f a with
    | error e => rw [hf] at h; cases h
    | ok b =>
      rw [hf] at h
      cases hm : mapME f as with
      | error e => rw [hm] at h; cases h
      | ok bs =>
        rw [hm] at h
        injection h with h
        rw [← h]
        exact List.Forall₂.cons hf (ih hm)

theorem forall2_imp_mem {α β : Type} {R S : α → β → Prop} :
    ∀ {l1 : List α} {l2 : List β}, List.Forall₂ R l1 l2 →
    (∀ a ∈ l1, ∀ b, R a b → S a b) → List.Forall₂ S l1 l2 := by
  intro l1 l2 h
  induction h with
  | nil => intro; exact List.Forall₂.nil
  | cons h1 _ ih =>
    intro himp
    exact List.Forall₂.cons (himp _ (by simp) _ h1)
      (ih (fun a ha b hr => himp a (by simp [ha]) b hr))

theorem forall2_mof_map {l1 : List Value} {l2 : List Record}
    (h : List.Forall₂ (fun k row => row.getVal "MOF" = k) l1 l2) :
    l2.map (fun row => row.getVal "MOF") = l1 := by
  induction h with
  | nil => rfl
  | cons h1 _ ih => simp [ih, h1]

theorem getVal_map_keyFun {g : String → Value} :
    ∀ {l : List String} {c : String}, c ∈ l →
    Record.getVal (l.map (fun c => (c, g c))) c = g c := by
  intro l
  induction l with
  | nil => intro c hc; cases hc
  | cons a as ih =>
    intro c hc
    by_cases hac : a = c
    · subst hac
      simp [Record.getVal, lookupVal_cons]
    · rcases List.mem_cons.mp hc with h | h
      · exact absurd h.symm hac
      · rw [show ((a :: as).map (fun c => (c, g c)))
            = (a, g a) :: as.map (fun c => (c, g c)) from rfl]
        unfold Record.getVal
        rw [lookupVal_cons]
        simp only [hac, if_false]
        exact ih h

theorem coerceUptake_getVal_mof (cols : List String) (r : Record) :
    (coerceUptake cols r).getVal "MOF" = r.getVal "MOF" := by
  unfold coerceUptake
  by_cases h : UPTAKE ∈ cols
  · rw [if_pos h]
    exact getVal_setVal_ne (by decide) _ _
  · rw [if_neg h]

theorem processGroup_multi_ok (cols : List String) (k : Value)
    (group : List Record) (rep : Record)
    (hlen : 1 < (group.map (coerceUptake cols)).length)
    (hup : UPTAKE ∈ cols)
    (hkeep : (KEEP_COLS.filter (fun c => c ∉ cols)).isEmpty = true)
    (hidx : idxmaxBy uptakeQ (group.map (coerceUptake cols)) = some rep) :
    processGroup cols k group = Except.ok (OUTPUT_COLS.map (fun c =>
      (c, if c ∈ KEEP_COLS then rep.getVal c
          else if c = "MOF" then k
          else if c ∈ cols then
            meanVal ((group.map (coerceUptake cols)).map (fun r => r.getVal c))
          else Value.missing))) := by
  unfold processGroup
  rw [if_pos hlen, if_pos hup, hidx]
  exact if_pos hkeep

theorem processGroup_multi_locKeyError (cols : List String) (k : Value)
    (group : List Record) (rep : Record)
    (hlen : 1 < (group.map (coerceUptake cols)).length)
    (hup : UPTAKE ∈ cols)
    (hkeep : (KEEP_COLS.filter (fun c => c ∉ cols)).isEmpty = false)
    (hidx : idxmaxBy uptakeQ (group.map (coerceUptake cols)) = some rep) :
    processGroup cols k group
      = Except.error (Err.locKeyError (KEEP_COLS.filter (fun c => c ∉ cols))) := by
  unfold processGroup
  rw [if_pos hlen, if_pos hup, hidx]
  exact if_neg (by rw [hkeep]; exact Bool.false_ne_true)

theorem processGroup_multi_valueError (cols : List String) (k : Value)
    (group : List Record)
    (hlen : 1 < (group.map (coerceUptake cols)).length)
    (hup : UPTAKE ∈ cols)
    (hidx : idxmaxBy uptakeQ (group.map (coerceUptake cols)) = Option.none) :
    processGroup cols k group = Except.error Err.valueError := by
  unfold processGroup
  rw [if_pos hlen, if_pos hup, hidx]

theorem processGroup_mof (cols : List String) (k : Value) (group : List Record)
    (hmof : "MOF" ∈ cols)
    (hgk : ∀ r ∈ group, r.getVal "MOF" = k)
    (hne : group ≠ []) (row : Record)
    (h : processGroup cols k group = Except.ok row) :
    row.getVal "MOF" = k := by
  by_cases hlen : 1 < (group.map (coerceUptake cols)).length
  · by_cases hup : UPTAKE ∈ cols
    · cases hidx : idxmaxBy uptakeQ (group.map (coerceUptake cols)) with
      | none =>
        rw [processGroup_multi_valueError cols k group hlen hup hidx] at h
        cases h
      | some rep =>
        cases hkeep : ((KEEP_COLS.filter (fun c => c ∉ cols)).isEmpty : Bool) with
        | false =>
          rw [processGroup_multi_locKeyError cols k group rep hlen hup hkeep
            hidx] at h
          cases h
        | true =>
          rw [processGroup_multi_ok cols k group rep hlen hup hkeep hidx] at h
          injection h with h
          rw [← h]
          rw [getVal_map_keyFun
            (by rw [OUTPUT_COLS]; exact List.mem_cons_self _ _)]
          rw [if_neg (by rw [KEEP_COLS]; decide), if_pos rfl]
    · unfold processGroup at h
      rw [if_pos hlen, if_neg hup] at h
      cases h
  · unfold processGroup at h
    rw [if_neg hlen] at h
    cases hg : group.map (coerceUptake cols) with
    | nil => exact absurd (List.map_eq_nil_iff.mp hg) hne
    | cons r rest =>
      cases rest with
      | nil =>
        rw [hg] at h
        injection h with h
        rw [← h]
        rw [getVal_map_keyFun (by rw [OUTPUT_COLS]; exact List.mem_cons_self _ _)]
        rw [if_pos hmof]
        have hr : ∃ r0 ∈ group, coerceUptake cols r0 = r := by
          cases group with
          | nil => cases hg
          | cons r0 rest0 =>
            injection hg with hg1 _
            exact ⟨r0, List.mem_cons_self _ _, hg1⟩
        rcases hr with ⟨r0, hr0, hcu⟩
        rw [← hcu, coerceUptake_getVal_mof]
        exact hgk r0 hr0
      | cons r2 rest2 =>
        rw [hg] at hlen
        exact absurd (by simp) hlen

/-- C7: on the success path with a nonempty matching subset, the number of
output rows equals the number of distinct (non-missing) entity-identity
values among the matching records, and the output rows appear in strictly
ascending order of their entity-identity value, independent of insertion
order. -/
theorem grouping_cardinality_and_order (df : Dataset)
    (inputs : List (String × InVal)) (t : Table)
    (hrows : df.rows.isEmpty = false) (hcols : df.cols.isEmpty = false)
    (hprov : (normalizeInputs inputs).isEmpty = false)
    (hmiss : (missingOf df (normalizeInputs inputs)).isEmpty = true)
    (hmatched : (matchedRows df (normalizeInputs inputs)).isEmpty = false)
    (h : find_matching_mofs df inputs = Except.ok t) :
    t.rows.length
      = (distinctIds (matchedRows df (normalizeInputs inputs))).length ∧
    List.Chain' (fun a b => valLeP a b ∧ a ≠ b)
      (t.rows.map (fun row => row.getVal "MOF")) := by
  unfold find_matching_mofs at h
  rw [if_neg (by rw [hrows, hcols]; exact Bool.false_ne_true)] at h
  rw [if_neg (by rw [hprov]; exact Bool.false_ne_true)] at h
  rw [if_neg (by rw [hmiss]; exact not_not_intro rfl)] at h
  rw [if_neg (by rw [hmatched]; exact Bool.false_ne_true)] at h
  by_cases hmof : "MOF" ∈ df.cols
  · rw [if_pos hmof] at h
    cases hm : mapME
        (fun k => processGroup df.cols k
          (groupOf (matchedRows df (normalizeInputs inputs)) k))
        (groupKeys (matchedRows df (normalizeInputs inputs))) with
    | error e => rw [hm] at h; simp only [Except.map] at h; cases h
    | ok rows =>
      have ht : t = ⟨OUTPUT_COLS, rows⟩ := mapME_map_ok h hm
      have hf2 := mapME_ok_forall2 hm
      have hf2' : List.Forall₂ (fun k row => row.getVal "MOF" = k)
          (groupKeys (matchedRows df (normalizeInputs inputs))) rows := by
        apply forall2_imp_mem hf2
        intro k hk row hpg
        have hgk : ∀ r ∈ groupOf (matchedRows df (normalizeInputs inputs)) k,
            r.getVal "MOF" = k := by
          intro r hr
          exact of_decide_eq_true (List.mem_filter.mp hr).2
        have hne : groupOf (matchedRows df (normalizeInputs inputs)) k ≠ [] := by
          have hk1 : k ∈ distinctIds (matchedRows df (normalizeInputs inputs)) :=
            (groupKeys_perm _).mem_iff.mp hk
          have hk2 := List.mem_dedup.mp hk1
          have hk3 := (List.mem_filter.mp hk2).1
          rcases List.mem_map.mp hk3 with ⟨r, hr, hrk⟩
          exact List.ne_nil_of_mem
            (List.mem_filter.mpr ⟨hr, decide_eq_true hrk⟩)
        exact processGroup_mof df.cols k _ hmof hgk hne row hpg
      constructor
      · rw [ht]
        show rows.length = _
        rw [← hf2.length_eq]
        exact groupKeys_length _
      · rw [ht]
        show List.Chain' _ (rows.map (fun row => row.getVal "MOF"))
        rw [forall2_mof_map hf2']
        exact groupKeys_strict_chain _
  · rw [if_neg hmof] at h
    cases h

/-- Dataset for the C7 witness: two records inserted in identity order "b"
then "a", both matching the criterion `CO2 = "x"`. -/
def dfW7 : Dataset :=
  ⟨["MOF", "CO2", "Gas uptake (mmol/g)"],
   [[("MOF", Value.text "b"), ("CO2", Value.text "x"),
     ("Gas uptake (mmol/g)", Value.num 1)],
    [("MOF", Value.text "a"), ("CO2", Value.text "x"),
     ("Gas uptake (mmol/g)", Value.num 2)]]⟩

/-- The table `find_matching_mofs` returns on `dfW7` with criterion
`CO2 = "x"`: one row per identity, in ascending identity order. -/
def tW7 : Table :=
  ⟨OUTPUT_COLS,
   [OUTPUT_COLS.map (fun c =>
      (c, if c = "MOF" then Value.text "a"
          else if c = "CO2" then Value.text "x"
          else if c = "Gas uptake (mmol/g)" then Value.num 2
          else Value.missing)),
    OUTPUT_COLS.map (fun c =>
      (c, if c = "MOF" then Value.text "b"
          else if c = "CO2" then Value.text "x"
          else if c = "Gas uptake (mmol/g)" then Value.num 1
          else Value.missing))]⟩

/-- Witness for C7 at concrete inputs: two identities, inserted "b" before
"a", produce two output rows in ascending identity order. -/
theorem grouping_cardinality_and_order_witness :
    tW7.rows.length
      = (distinctIds
          (matchedRows dfW7 (normalizeInputs [("CO2", InVal.str "x")]))).length ∧
    List.Chain' (fun a b => valLeP a b ∧ a ≠ b)
      (tW7.rows.map (fun row => row.getVal "MOF")) :=
  grouping_cardinality_and_order dfW7 [("CO2", InVal.str "x")] tW7
    rfl rfl rfl rfl rfl rfl

theorem pickMax_fnone {f : Record → Option ℚ} {r : Record}
    (best : Option Record) (h : f r = Option.none) : pickMax f r best = best := by
  unfold pickMax
  rw [h]

theorem pickMax_some_none {f : Record → Option ℚ} {r : Record} {q : ℚ}
    (h : f r = some q) : pickMax f r Option.none = some r := by
  unfold pickMax
  rw [h]

theorem pickMax_some_some {f : Record → Option ℚ} {r r' : Record} {q q' : ℚ}
    (h : f r = some q) (h' : f r' = some q') :
    pickMax f r (some r') = if q < q' then some r' else some r := by
  unfold pickMax
  rw [h]
  show (match f r' with
    | some p => if q < p then some r' else some r
    | Option.none => some r) = if q < q' then some r' else some r
  rw [h']

theorem pickMax_some_bad {f : Record → Option ℚ} {r r' : Record} {q : ℚ}
    (h : f r = some q) (h' : f r' = Option.none) :
    pickMax f r (some r') = some r := by
  unfold pickMax
  rw [h]
  show (match f r' with
    | some p => if q < p then some r' else some r
    | Option.none => some r) = some r
  rw [h']

theorem idxmaxBy_none {f : Record → Option ℚ} :
    ∀ {l : List Record}, idxmaxBy f l = Option.none →
    ∀ x ∈ l, f x = Option.none := by
  intro l
  induction l with
  | nil => intro _ x hx; cases hx
  | cons a as ih =>
    intro h x hx
    rw [show idxmaxBy f (a :: as) = pickMax f a (idxmaxBy f as) from rfl] at h
    cases hfa : f a with
    | some qa =>
      cases hrec : idxmaxBy f as with
      | none => rw [hrec, pickMax_some_none hfa] at h; cases h
      | some r' =>
        cases hfr' : f r' with
        | some q' =>
          rw [hrec, pickMax_some_some hfa hfr'] at h
          by_cases hlt : qa < q'
          · rw [if_pos hlt] at h; cases h
          · rw [if_neg hlt] at h; cases h
        | none => rw [hrec, pickMax_some_bad hfa hfr'] at h; cases h
    | none =>
      rw [pickMax_fnone _ hfa] at h
      rcases List.mem_cons.mp hx with rfl | hx'
      · exact hfa
      · exact ih h x hx'

/-- Soundness of `idxmaxBy` (the embedding of `Series.idxmax`, line 107)
against the spec-side `IsFirstMax`: the returned row attains the maximum
numeric value and is the first in order to do so. -/
theorem idxmaxBy_spec {f : Record → Option ℚ} :
    ∀ {l : List Record} {r : Record}, idxmaxBy f l = some r →
    ∃ q, IsFirstMax f l r q := by
  intro l
  induction l with
  | nil => intro r h; cases h
  | cons a as ih =>
    intro r h
    rw [show idxmaxBy f (a :: as) = pickMax f a (idxmaxBy f as) from rfl] at h
    cases hfa : f a with
    | none =>
      rw [pickMax_fnone _ hfa] at h
      obtain ⟨q, hq, l1, l2, hsplit, hall, hstrict⟩ := ih h
      refine ⟨q, hq, a :: l1, l2, by rw [hsplit, List.cons_append], ?_, ?_⟩
      · intro x hx p hp
        rcases List.mem_cons.mp hx with rfl | hx'
        · rw [hfa] at hp; cases hp
        · exact hall x hx' p hp
      · intro x hx p hp
        rcases List.mem_cons.mp hx with rfl | hx'
        · rw [hfa] at hp; cases hp
        · exact hstrict x hx' p hp
    | some qa =>
      cases hrec : idxmaxBy f as with
      | none =>
        rw [hrec, pickMax_some_none hfa] at h
        injection h with h
        subst h
        refine ⟨qa, hfa, [], as, rfl, ?_, by intro x hx; cases hx⟩
        intro x hx p hp
        rcases List.mem_cons.mp hx with rfl | hx'
        · rw [hfa] at hp; injection hp with hp; rw [← hp]
        · rw [idxmaxBy_none hrec x hx'] at hp; cases hp
      | some r' =>
        obtain ⟨q', hq', l1, l2, hsplit, hall, hstrict⟩ := ih hrec
        rw [hrec, pickMax_some_some hfa hq'] at h
        by_cases hlt : qa < q'
        · rw [if_pos hlt] at h
          injection h with h
          subst h
          refine ⟨q', hq', a :: l1, l2, by rw [hsplit, List.cons_append], ?_, ?_⟩
          · intro x hx p hp
            rcases List.mem_cons.mp hx with rfl | hx'
            · rw [hfa] at hp; injection hp with hp
              rw [← hp]; exact le_of_lt hlt
            · exact hall x hx' p hp
          · intro x hx p hp
            rcases List.mem_cons.mp hx with rfl | hx'
            · rw [hfa] at hp; injection hp with hp; rw [← hp]; exact hlt
            · exact hstrict x hx' p hp
        · rw [if_neg hlt] at h
          injection h with h
          subst h
          refine ⟨qa, hfa, [], as, rfl, ?_, by intro x hx; cases hx⟩
          intro x hx p hp
          rcases List.mem_cons.mp hx with rfl | hx'
          · rw [hfa] at hp; injection hp with hp; rw [← hp]
          · exact le_trans (hall x hx' p hp) (le_of_not_lt hlt)

theorem keep_subset_output : ∀ c ∈ KEEP_COLS, c ∈ OUTPUT_COLS := by decide

/-- C5: for a multi-record group whose representative exists and whose
schema contains every operating-condition column (so `group.loc[idx_max,
keep_cols]` at line 114 succeeds rather than raising `KeyError`),
`processGroup` (lines 99-132) returns a row whose operating-condition
columns (`KEEP_COLS`) are carried over from the representative — the record
with the maximum operating-uptake value, the first in filtered order winning
ties (`IsFirstMax`) — whose entity-identity column equals the group's
identity value, whose remaining schema columns are the arithmetic mean over
only the group's numeric, present values (null when a column has none), and
whose output-only columns are null. -/
theorem multi_group_aggregation (cols : List String) (k : Value)
    (group : List Record) (rep : Record)
    (hlen : 1 < (group.map (coerceUptake cols)).length)
    (hup : UPTAKE ∈ cols)
    (hkeep : (KEEP_COLS.filter (fun c => c ∉ cols)).isEmpty = true)
    (hidx : idxmaxBy uptakeQ (group.map (coerceUptake cols)) = some rep) :
    (∃ q, IsFirstMax uptakeQ (group.map (coerceUptake cols)) rep q) ∧
    ∃ row, processGroup cols k group = Except.ok row ∧
      row.getVal "MOF" = k ∧
      (∀ c ∈ KEEP_COLS, row.getVal c = rep.getVal c) ∧
      (∀ c ∈ OUTPUT_COLS, c ∉ KEEP_COLS → c ≠ "MOF" → c ∈ cols →
        row.getVal c
          = meanVal ((group.map (coerceUptake cols)).map (fun r => r.getVal c))) ∧
      (∀ c ∈ OUTPUT_COLS, c ∉ KEEP_COLS → c ≠ "MOF" → c ∉ cols →
        row.getVal c = Value.missing) := by
  refine ⟨idxmaxBy_spec hidx, ?_⟩
  refine ⟨_, processGroup_multi_ok cols k group rep hlen hup hkeep hidx,
    ?_, ?_, ?_, ?_⟩
  · rw [getVal_map_keyFun
      (show "MOF" ∈ OUTPUT_COLS by rw [OUTPUT_COLS]; exact List.mem_cons_self _ _)]
    rw [if_neg (show ¬ "MOF" ∈ KEEP_COLS by rw [KEEP_COLS]; decide), if_pos rfl]
  · intro c hc
    rw [getVal_map_keyFun (keep_subset_output c hc), if_pos hc]
  · intro c hco hnk hnm hcc
    rw [getVal_map_keyFun hco, if_neg hnk, if_neg hnm, if_pos hcc]
  · intro c hco hnk hnm hcc
    rw [getVal_map_keyFun hco, if_neg hnk, if_neg hnm, if_neg hcc]

/-- The multi-record group of the spec's example scenario: two records for
entity "A" with operating uptakes 2 and 5 and descriptor values 10 and 20. -/
def groupW5 : List Record :=
  [[("MOF", Value.text "A"), ("Gas uptake (mmol/g)", Value.num 2),
    ("Void Fraction", Value.num 10)],
   [("MOF", Value.text "A"), ("Gas uptake (mmol/g)", Value.num 5),
    ("Void Fraction", Value.num 20)]]

/-- The schema for the C5 witness: the full input schema, which contains
every operating-condition column (columns of the schema absent from a
record read as NaN cells, not as missing columns). -/
def colsW5 : List String := INPUT_COLS

/-- The representative of `groupW5`: its second record (uptake 5, the
maximum), after the group's uptake coercion. -/
def repW5 : Record :=
  [("Gas uptake (mmol/g)", Value.num 5), ("MOF", Value.text "A"),
   ("Void Fraction", Value.num 20)]

/-- Witness for C5 at the spec's example scenario. -/
theorem multi_group_aggregation_witness :
    (∃ q, IsFirstMax uptakeQ (groupW5.map (coerceUptake colsW5)) repW5 q) ∧
    ∃ row, processGroup colsW5 (Value.text "A") groupW5 = Except.ok row ∧
      row.getVal "MOF" = Value.text "A" ∧
      (∀ c ∈ KEEP_COLS, row.getVal c = repW5.getVal c) ∧
      (∀ c ∈ OUTPUT_COLS, c ∉ KEEP_COLS → c ≠ "MOF" → c ∈ colsW5 →
        row.getVal c
          = meanVal ((groupW5.map (coerceUptake colsW5)).map
              (fun r => r.getVal c))) ∧
      (∀ c ∈ OUTPUT_COLS, c ∉ KEEP_COLS → c ≠ "MOF" → c ∉ colsW5 →
        row.getVal c = Value.missing) :=
  multi_group_aggregation colsW5 (Value.text "A") groupW5 repW5
    (by decide) (by decide) rfl rfl

theorem PdHeap.read_write_self (h : PdHeap) (p : ℕ) (d : Dataset)
    (hp : p < h.dfs.length) : (h.write p d).read p = d := by
  unfold PdHeap.read PdHeap.write
  rw [List.getD_eq_getElem?_getD, List.getElem?_set_self hp]
  rfl

theorem PdHeap.read_write_ne (h : PdHeap) (q p : ℕ) (d : Dataset)
    (hne : q ≠ p) : (h.write q d).read p = h.read p := by
  unfold PdHeap.read PdHeap.write
  rw [List.getD_eq_getElem?_getD, List.getElem?_set_ne hne,
    ← List.getD_eq_getElem?_getD]

theorem PdHeap.length_write (h : PdHeap) (p : ℕ) (d : Dataset) :
    (h.write p d).dfs.length = h.dfs.length := List.length_set _ _ _

theorem PdHeap.read_alloc_self (h : PdHeap) (d : Dataset) :
    (h.alloc d).1.read (h.alloc d).2 = d := by
  show (⟨h.dfs ++ [d]⟩ : PdHeap).read h.dfs.length = d
  unfold PdHeap.read
  rw [List.getD_eq_getElem?_getD, List.getElem?_concat_length]
  rfl

theorem PdHeap.read_alloc_lt (h : PdHeap) (d : Dataset) (p : ℕ)
    (hp : p < h.dfs.length) : (h.alloc d).1.read p = h.read p := by
  show (⟨h.dfs ++ [d]⟩ : PdHeap).read p = h.read p
  unfold PdHeap.read
  exact List.getD_append _ _ _ _ hp

theorem coercionWrites_read_other (provided : List (String × CritVal))
    (pw p : ℕ) (hne : pw ≠ p) :
    ∀ hh : PdHeap, (coercionWrites provided pw hh).read p = hh.read p := by
  induction provided with
  | nil => intro hh; rfl
  | cons q qs ih =>
    intro hh
    show (coercionWrites qs pw
      (hh.write pw ((hh.read pw).setColWith q.1 (coerceForCrit q.2)))).read p
      = hh.read p
    rw [ih, PdHeap.read_write_ne _ _ _ _ hne]

theorem coercionWrites_length (provided : List (String × CritVal)) (pw : ℕ) :
    ∀ hh : PdHeap, (coercionWrites provided pw hh).dfs.length
      = hh.dfs.length := by
  induction provided with
  | nil => intro hh; rfl
  | cons q qs ih =>
    intro hh
    show (coercionWrites qs pw
      (hh.write pw ((hh.read pw).setColWith q.1 (coerceForCrit q.2)))).dfs.length
      = hh.dfs.length
    rw [ih, PdHeap.length_write]

theorem coercionWrites_read_self (provided : List (String × CritVal)) (pw : ℕ) :
    ∀ hh : PdHeap, pw < hh.dfs.length →
    (coercionWrites provided pw hh).read pw
      = applyCoercions (hh.read pw) provided := by
  induction provided with
  | nil => intro hh _; rfl
  | cons q qs ih =>
    intro hh hlt
    show (coercionWrites qs pw
      (hh.write pw ((hh.read pw).setColWith q.1 (coerceForCrit q.2)))).read pw
      = _
    rw [ih _ (by rw [PdHeap.length_write]; exact hlt)]
    rw [PdHeap.read_write_self _ _ _ hlt]
    rfl

theorem workFrame_eq (h : PdHeap) (p : ℕ)
    (provided : List (String × CritVal)) :
    workFrame h p provided = applyCoercions (h.read p) provided := by
  unfold workFrame workedHeap
  rw [coercionWrites_read_self _ _ _ (by
    show h.dfs.length < (h.dfs ++ [h.read p]).length
    simp)]
  rw [PdHeap.read_alloc_self]

theorem workedHeap_read (h : PdHeap) (p : ℕ)
    (provided : List (String × CritVal)) (hp : p < h.dfs.length) :
    (workedHeap h p provided).read p = h.read p := by
  unfold workedHeap
  show (coercionWrites provided h.dfs.length
    (⟨h.dfs ++ [h.read p]⟩ : PdHeap)).read p = h.read p
  rw [coercionWrites_read_other _ _ _ (Nat.ne_of_gt hp)]
  exact PdHeap.read_alloc_lt _ _ _ hp

/-- C9: the caller's dataset is unchanged by the invocation — every type
coercion performed for predicate evaluation is a write to the freshly
allocated working copy (`df.copy()`), never to the caller's pointer — and
the heap-level run returns exactly what the pure `find_matching_mofs`
computes on the caller's dataset. -/
theorem caller_dataset_unchanged (h : PdHeap) (p : ℕ)
    (inputs : List (String × InVal)) :
    (find_matching_mofs_heap h p inputs).1.read p = h.read p ∧
    (find_matching_mofs_heap h p inputs).2
      = find_matching_mofs (h.read p) inputs := by
  unfold find_matching_mofs_heap find_matching_mofs
  by_cases h1 : ((h.read p).rows.isEmpty || (h.read p).cols.isEmpty : Bool)
  · rw [if_pos h1, if_pos h1]; exact ⟨rfl, rfl⟩
  · rw [if_neg h1, if_neg h1]
    have hp : p < h.dfs.length := by
      by_contra hnp
      have hdef : h.read p = ⟨[], []⟩ := by
        unfold PdHeap.read
        exact List.getD_eq_default _ _ (le_of_not_lt hnp)
      rw [hdef] at h1
      exact h1 rfl
    by_cases h2 : (normalizeInputs inputs).isEmpty
    · rw [if_pos h2, if_pos h2]; exact ⟨rfl, rfl⟩
    · rw [if_neg h2, if_neg h2]
      by_cases h3 : ¬ (missingOf (h.read p) (normalizeInputs inputs)).isEmpty
      · rw [if_pos h3, if_pos h3]; exact ⟨rfl, rfl⟩
      · rw [if_neg h3, if_neg h3]
        have hmr : (workFrame h p (normalizeInputs inputs)).rows.filter
            (rowMask (normalizeInputs inputs))
            = matchedRows (h.read p) (normalizeInputs inputs) := by
          rw [workFrame_eq]; rfl
        rw [hmr]
        have hread : (workedHeap h p (normalizeInputs inputs)).read p
            = h.read p := workedHeap_read h p _ hp
        by_cases h4 : (matchedRows (h.read p) (normalizeInputs inputs)).isEmpty
        · rw [if_pos h4, if_pos h4]; exact ⟨hread, rfl⟩
        · rw [if_neg h4, if_neg h4]
          by_cases h5 : "MOF" ∈ (h.read p).cols
          · rw [if_pos h5, if_pos h5]; exact ⟨hread, rfl⟩
          · rw [if_neg h5, if_neg h5]; exact ⟨hread, rfl⟩
